import Mathlib

/-!
Shallow embedding of `package_boards.py` from the Arduino-Board-Index
repository, together with theorems settling the specification claims.

The script scans GitHub releases page by page, folds `manifest.json`
contents and the remaining assets into two nested dictionaries keyed by
platform and version string, joins the two maps when rendering the index,
sanity-checks the rendered index with a JSON parse, creates a draft
release, and uploads the index as an asset.

Modelling conventions:
* Python `dict` (insertion-ordered, unique keys) is an association list
  `List (String × β)` manipulated only through `dictSet` / `dictGet?`.
* `str.split(sep, 1)` with tuple unpacking is `splitOnce`, returning
  `none` when the separator is absent (the Python code raises there).
* `int(...)` is modelled for unsigned decimal literals only (`parseIntPy`);
  every version string appearing in the claims is of that shape.
* Fallible code returns `Option`; `none` models an uncaught Python
  exception aborting the run.
-/

namespace ArduinoBoardIndex

/-! ### Python dict as an insertion-ordered association list -/

/-- Lookup in a Python dict: the value stored under key `k`, if any. -/
def dictGet? {β : Type} (m : List (String × β)) (k : String) : Option β :=
  match m with
  | [] => none
  | (k', v) :: rest => if k' = k then some v else dictGet? rest k

/-- Mutation `m[k] = v` on a Python dict: replaces the entry with key `k`
in place, or appends a fresh entry at the end. -/
def dictSet {β : Type} (m : List (String × β)) (k : String) (v : β) :
    List (String × β) :=
  match m with
  | [] => [(k, v)]
  | (k', v') :: rest =>
    if k' = k then (k, v) :: rest else (k', v') :: dictSet rest k v

/-- Lookup with default: models `defaultdict(dict)` reads, which yield the
empty dict for an absent key. -/
def dictGetD {β : Type} (m : List (String × β)) (k : String) (d : β) : β :=
  (dictGet? m k).getD d

theorem dictGet?_dictSet_self {β : Type} (m : List (String × β)) (k : String)
    (v : β) : dictGet? (dictSet m k v) k = some v := by
  induction m with
  | nil => simp [dictSet, dictGet?]
  | cons hd tl ih =>
    obtain ⟨k', v'⟩ := hd
    by_cases h : k' = k
    · simp [dictSet, dictGet?, h]
    · simp [dictSet, dictGet?, h, ih]

theorem dictGet?_dictSet_ne {β : Type} (m : List (String × β)) (k k' : String)
    (v : β) (h : k' ≠ k) : dictGet? (dictSet m k v) k' = dictGet? m k' := by
  induction m with
  | nil => simp [dictSet, dictGet?, Ne.symm h]
  | cons hd tl ih =>
    obtain ⟨k₀, v₀⟩ := hd
    by_cases hk : k₀ = k
    · subst hk
      simp [dictSet, dictGet?, Ne.symm h]
    · simp [dictSet, dictGet?, hk, ih]

/-! ### Python string helpers -/

/-- Core of `splitOnce` on explicit character lists. -/
def splitOnceAux (sep : Char) : List Char → Option (List Char × List Char)
  | [] => none
  | c :: cs =>
    if c = sep then some ([], cs)
    else (splitOnceAux sep cs).map fun p => (c :: p.1, p.2)

/-- Python `s.split(sep, 1)` followed by unpacking into two variables:
splits at the first occurrence of `sep`; `none` when `sep` is absent
(Python raises `ValueError` on the unpacking there). -/
def splitOnce (sep : Char) (s : String) : Option (String × String) :=
  (splitOnceAux sep s.data).map fun p => (String.mk p.1, String.mk p.2)

/-- Core of `splitAll` on explicit character lists; keeps empty pieces,
like Python `str.split` with an explicit separator. -/
def splitAllAux (sep : Char) : List Char → List (List Char)
  | [] => [[]]
  | c :: cs =>
    match splitAllAux sep cs with
    | [] => [[c]]
    | r :: rs => if c = sep then [] :: r :: rs else (c :: r) :: rs

/-- Python `s.split(sep)` (unlimited splits, empty pieces kept). -/
def splitAll (sep : Char) (s : String) : List String :=
  (splitAllAux sep s.data).map String.mk

/-- Python `int(s)` restricted to unsigned decimal literals: `none` on the
empty string or any non-digit character (where Python raises). -/
def parseIntPy (s : String) : Option Int :=
  if s.data ≠ [] ∧ s.data.all Char.isDigit then
    some (Int.ofNat (s.data.foldl (fun acc c => acc * 10 + (c.toNat - 48)) 0))
  else none

/-- The script's `list(map(int, version.split('.')))`. -/
def parseVersion (s : String) : Option (List Int) :=
  (splitAll '.' s).mapM parseIntPy

/-! ### version_ordering (package_boards.py lines 12-28) -/

/-- Compares two version numbers represented as lists of integers by
walking `zip a b`: `-1` at the first position where `a` is smaller, `1`
at the first position where `a` is larger, `0` when the zipped prefix is
exhausted without a difference. -/
def version_ordering : List Int → List Int → Int
  | a :: as, b :: bs =>
    if a < b then -1 else if b < a then 1 else version_ordering as bs
  | _, _ => 0

/-! ### Data model -/

/-- One value of the `manifest_content` inner dicts:
`{'boards': ..., 'version': ..., 'architecture': ...}` (line 54). -/
structure ManifestEntry where
  boards : List String
  version : List Int
  architecture : String
deriving DecidableEq

/-- One value of the `released_versions` inner dicts:
`{'version': ..., 'url': ..., 'filename': ..., 'filesize': ...}` (line 60). -/
structure CatalogEntry where
  version : List Int
  url : String
  filename : String
  filesize : Int
deriving DecidableEq

/-- One platform's slice of a downloaded `manifest.json`, as consumed by
the loop at lines 51-54: the platform key and the `version` / `boards` /
`architecture` fields of its value. -/
structure RawManifestItem where
  platform : String
  version : String
  boards : List String
  architecture : String
deriving DecidableEq

/-- A release asset as read from the API response: `name`,
`browser_download_url` and `size` are the only fields the script uses. -/
structure Asset where
  name : String
  browser_download_url : String
  size : Int
deriving DecidableEq

/-- The `manifest_content` accumulator: platform → version string → entry. -/
abbrev MMap := List (String × List (String × ManifestEntry))

/-- The `released_versions` accumulator: platform → version string → entry. -/
abbrev CMap := List (String × List (String × CatalogEntry))

/-! ### Manifest Merger (package_boards.py lines 48-54) -/

/-- One iteration of the manifest loop:
`manifest_content[platform][version] = {'boards': ..., 'version': platform_version, 'architecture': ...}`
after `platform_version = list(map(int, version.split('.')))`. -/
def scanManifestItem (m : MMap) (it : RawManifestItem) : Option MMap :=
  (parseVersion it.version).map fun platform_version =>
    dictSet m it.platform
      (dictSet (dictGetD m it.platform []) it.version
        ⟨it.boards, platform_version, it.architecture⟩)

/-- Folds a list of manifest items into an accumulator, aborting at the
first parse fault, as the scan loop does. -/
def mergeManifestsFrom (m : MMap) : List RawManifestItem → Option MMap
  | [] => some m
  | it :: rest => (scanManifestItem m it).bind fun m' => mergeManifestsFrom m' rest

/-- The whole manifest fold, starting from the empty `defaultdict(dict)`. -/
def mergeManifests (items : List RawManifestItem) : Option MMap :=
  mergeManifestsFrom [] items

/-! ### Asset Cataloger (package_boards.py lines 55-60) -/

/-- The filename parse in the `else` branch (lines 56-58):
`version, hash_platform_file = name.split('_', 1)`,
`hash, platform_file = hash_platform_file.split('_', 1)`,
`platform, extension = platform_file.split('.', 1)`.
Returns `(version string, checksum, platform, extension)`. -/
def parseAssetName (name : String) :
    Option (String × String × String × String) :=
  (splitOnce '_' name).bind fun p1 =>
  (splitOnce '_' p1.2).bind fun p2 =>
  (splitOnce '.' p2.2).map fun p3 => (p1.1, p2.1, p3.1, p3.2)

/-- One iteration of the asset loop (line 60):
`released_versions[platform][version] = {'version': list(map(int, version.split('.'))), 'url': ..., 'filename': ..., 'filesize': ...}`. -/
def scanAsset (m : CMap) (a : Asset) : Option CMap :=
  (parseAssetName a.name).bind fun parsed =>
  (parseVersion parsed.1).map fun pv =>
    dictSet m parsed.2.2.1
      (dictSet (dictGetD m parsed.2.2.1 []) parsed.1
        ⟨pv, a.browser_download_url, a.name, a.size⟩)

/-- Folds a list of non-manifest assets into an accumulator, aborting at
the first parse fault, as the scan loop does. -/
def catalogAssetsFrom (m : CMap) : List Asset → Option CMap
  | [] => some m
  | a :: rest => (scanAsset m a).bind fun m' => catalogAssetsFrom m' rest

/-- The whole asset fold, starting from the empty `defaultdict(dict)`. -/
def catalogAssets (assets : List Asset) : Option CMap :=
  catalogAssetsFrom [] assets

/-! ### Release Scanner requests (package_boards.py lines 41-64) -/

/-- An outgoing HTTP GET as `aiohttp` sees it: the URL, the query string
parameters (aiohttp `params=`, none are passed at line 44) and the HTTP
headers (`headers=`). -/
structure GetRequest where
  url : String
  query : List (String × String)
  headers : List (String × String)
deriving DecidableEq

/-- The releases-listing request built at line 44:
`session.get('https://api.github.com/repos/AaronLi/Arduino-Boards/releases', headers={"accept": ..., 'per_page': str(per_page), 'page': str(page_number), "X-Github-Api-Version": ...})`. -/
def releasesPageRequest (per_page page_number : Nat) : GetRequest :=
  { url := "https://api.github.com/repos/AaronLi/Arduino-Boards/releases"
    query := []
    headers := [("accept", "application/vnd.github+json"),
                ("per_page", toString per_page),
                ("page", toString page_number),
                ("X-Github-Api-Version", "2022-11-28")] }

/-- The default of the `per_page` parameter of `get_released_boards`. -/
def per_page_default : Nat := 30

/-- The page numbers requested by the `while True` loop when started at
page `p`: the environment `pages` maps a page number to the list of
releases the API returns for it; the loop requests the current page,
stops after it when it holds fewer than `per_page` items, and otherwise
continues with `page_number += 1`. `fuel` bounds the number of requests
so the model stays total. -/
def scanPagesFrom {α : Type} (pages : Nat → List α) (per_page : Nat) :
    Nat → Nat → List Nat
  | 0, _ => []
  | fuel + 1, p =>
    p :: (if (pages p).length < per_page then []
          else scanPagesFrom pages per_page fuel (p + 1))

/-- The page numbers requested by a run of `get_released_boards`, which
initialises `page_number = 0`. -/
def requestedPages {α : Type} (pages : Nat → List α) (per_page fuel : Nat) :
    List Nat :=
  scanPagesFrom pages per_page fuel 0

/-! ### Index Publisher join (package_boards.py lines 116-132) -/

/-- The substitution dictionary passed to `chevron.render` for one
platform entry (lines 120-131). -/
structure PlatformRecord where
  platform_name : String
  architecture : String
  version : String
  boards : List String
  url : String
  filename : String
  size_bytes : Int
  sha256_checksum : String
deriving DecidableEq

/-- One iteration of the inner publish loop (lines 118-131): re-splits
the stored filename to recover the checksum
(`_, checksum_platform_file = filename.split('_', 1)`;
`checksum, _ = checksum_platform_file.split('_', 1)`), then builds the
render dictionary, reading `manifest_info[platform][version]` — a
`defaultdict(dict)`, so an absent platform yields the empty dict and the
version lookup then faults with `KeyError`. -/
def buildPlatformRecord (manifest_info : MMap) (platform version : String)
    (c : CatalogEntry) : Option PlatformRecord :=
  (splitOnce '_' c.filename).bind fun p1 =>
  (splitOnce '_' p1.2).bind fun p2 =>
  (dictGet? (dictGetD manifest_info platform []) version).map fun me =>
    { platform_name := platform
      architecture := me.architecture
      version := version
      boards := me.boards
      url := c.url
      filename := c.filename
      size_bytes := c.filesize
      sha256_checksum := p2.1 }

/-- Effectful map over a list in the `Option` monad, aborting at the
first `none`: the shape of a Python `for` loop whose body may raise. -/
def optionMapM {α β : Type} (f : α → Option β) : List α → Option (List β)
  | [] => some []
  | x :: xs => (f x).bind fun y => (optionMapM f xs).map fun ys => y :: ys

/-- The full double loop
`for platform in released_boards: for version in released_boards[platform]: ...`
collecting `platform_entries`, aborting at the first fault. -/
def buildPlatformEntries (manifest_info : MMap) (catalog : CMap) :
    Option (List PlatformRecord) :=
  (optionMapM
    (fun pi => optionMapM
      (fun vc => buildPlatformRecord manifest_info pi.1 vc.1 vc.2) pi.2)
    catalog).map List.flatten

/-! ### Publish phase (package_boards.py lines 76-92 and 134-138) -/

/-- Extraction of the new release id in `create_release` (line 92):
`response['id']`, a `KeyError` fault when absent. The response body is
abstracted to its integer-valued fields. -/
def create_release (response : List (String × Int)) : Option Int :=
  dictGet? response "id"

/-- Observable publish-phase events of `main` (lines 135-138). -/
inductive Ev where
  | parseIndex (s : String)
  | createReleaseCall
  | createReleaseReturn (id : Int)
  | uploadCall (id : Int) (body : String)
deriving DecidableEq

/-- The event trace of the tail of `main` (lines 135-138):
`sanity_check = json.loads(dmfg_index)` — a fault ends the run before any
write; then `release_id = await create_release(...)` — a missing `id`
ends the run after the POST but before any upload; then
`await upload_assets(..., release_id, dmfg_index)` with exactly the
returned id and the rendered index. `jsonOk` models whether `json.loads`
accepts the rendered index; `createResponse` models the create-release
POST's response body. -/
def mainPublish (jsonOk : String → Bool) (createResponse : List (String × Int))
    (dmfg_index : String) : List Ev :=
  Ev.parseIndex dmfg_index ::
    (if jsonOk dmfg_index then
      Ev.createReleaseCall ::
        (match create_release createResponse with
         | some release_id =>
           [Ev.createReleaseReturn release_id,
            Ev.uploadCall release_id dmfg_index]
         | none => [])
     else [])

/-- A concrete pagination environment used to instantiate the pagination
theorem: pages 0 and 1 are full (30 items), page 2 is short. -/
def pagesExample : Nat → List Nat :=
  fun n => if n < 2 then List.replicate 30 0 else [0]

/-! ### Properties of version_ordering -/

theorem version_ordering_self (a : List Int) : version_ordering a a = 0 := by
  induction a with
  | nil => rfl
  | cons x xs ih => simp [version_ordering, ih]

theorem version_ordering_neg (a b : List Int) :
    version_ordering a b = -version_ordering b a := by
  induction a generalizing b with
  | nil => cases b <;> simp [version_ordering]
  | cons x xs ih =>
    cases b with
    | nil => simp [version_ordering]
    | cons y ys =>
      rcases lt_trichotomy x y with h | h | h
      · simp [version_ordering, h, lt_asymm h]
      · subst h
        simp [version_ordering, ih]
      · simp [version_ordering, h, lt_asymm h]

theorem version_ordering_lex_of_length_eq (a : List Int) :
    ∀ b : List Int, a.length = b.length →
      (version_ordering a b = -1 ↔ List.Lex (· < ·) a b) ∧
      (version_ordering a b = 0 ↔ a = b) ∧
      (version_ordering a b = 1 ↔ List.Lex (· < ·) b a) := by
  induction a with
  | nil =>
    intro b hb
    have : b = [] := by cases b <;> simp_all
    subst this
    refine ⟨?_, ?_, ?_⟩
    · exact iff_of_false (by decide) (List.Lex.not_nil_right _ _)
    · simp [version_ordering]
    · exact iff_of_false (by decide) (List.Lex.not_nil_right _ _)
  | cons x xs ih =>
    intro b hb
    cases b with
    | nil => simp at hb
    | cons y ys =>
      have hlen : xs.length = ys.length := by simpa using hb
      rcases lt_trichotomy x y with h | h | h
      · have hvo : version_ordering (x :: xs) (y :: ys) = -1 := by
          simp [version_ordering, h]
        refine ⟨?_, ?_, ?_⟩
        · rw [hvo]
          exact iff_of_true rfl (List.Lex.rel h)
        · rw [hvo]
          refine iff_of_false (by decide) fun heq => ?_
          injection heq with h1 _
          exact absurd (h1 ▸ h) (lt_irrefl y)
        · rw [hvo]
          refine iff_of_false (by decide) fun hco => ?_
          cases hco with
          | cons hco' => exact absurd h (lt_irrefl _)
          | rel hr => exact absurd hr (lt_asymm h)
      · subst h
        have hvo : version_ordering (x :: xs) (x :: ys) = version_ordering xs ys := by
          simp [version_ordering]
        obtain ⟨i1, i2, i3⟩ := ih ys hlen
        refine ⟨?_, ?_, ?_⟩
        · rw [hvo, List.Lex.cons_iff]
          exact i1
        · rw [hvo, i2]
          simp
        · rw [hvo, List.Lex.cons_iff]
          exact i3
      · have hvo : version_ordering (x :: xs) (y :: ys) = 1 := by
          simp [version_ordering, h, lt_asymm h]
        refine ⟨?_, ?_, ?_⟩
        · rw [hvo]
          refine iff_of_false (by decide) fun hco => ?_
          cases hco with
          | cons hco' => exact absurd h (lt_irrefl _)
          | rel hr => exact absurd hr (lt_asymm h)
        · rw [hvo]
          refine iff_of_false (by decide) fun heq => ?_
          injection heq with h1 _
          exact absurd (h1 ▸ h) (lt_irrefl x)
        · rw [hvo]
          exact iff_of_true rfl (List.Lex.rel h)

theorem version_ordering_take (a : List Int) :
    ∀ b : List Int,
      version_ordering a b =
        version_ordering (a.take b.length) (b.take a.length) := by
  induction a with
  | nil => intro b; cases b <;> rfl
  | cons x xs ih =>
    intro b
    cases b with
    | nil => rfl
    | cons y ys =>
      simp only [List.length_cons, List.take_succ_cons]
      by_cases h1 : x < y
      · simp [version_ordering, h1]
      · by_cases h2 : y < x
        · simp [version_ordering, h1, h2]
        · simp [version_ordering, h1, h2, ih ys]

theorem version_ordering_eq_zero_of_take_left (a : List Int) :
    ∀ b : List Int, a = b.take a.length → version_ordering a b = 0 := by
  induction a with
  | nil => intro b _; cases b <;> rfl
  | cons x xs ih =>
    intro b h
    cases b with
    | nil => simp at h
    | cons y ys =>
      simp only [List.length_cons, List.take_succ_cons, List.cons.injEq] at h
      obtain ⟨rfl, hxs⟩ := h
      simp [version_ordering, ih ys hxs]

/-! ### Claim theorems about version_ordering -/

/-- C3: for equal-length integer lists the comparator returns -1/0/1
exactly matching the standard lexicographic order; for any pair it
compares only the shared prefix, and it returns 0 whenever the shorter
list equals the longer list's prefix of the same length. -/
theorem version_ordering_spec :
    (∀ a b : List Int, a.length = b.length →
      ((version_ordering a b = -1 ↔ List.Lex (· < ·) a b) ∧
       (version_ordering a b = 0 ↔ a = b) ∧
       (version_ordering a b = 1 ↔ List.Lex (· < ·) b a))) ∧
    (∀ a b : List Int,
      version_ordering a b =
        version_ordering (a.take b.length) (b.take a.length)) ∧
    (∀ a b : List Int, a = b.take a.length ∨ b = a.take b.length →
      version_ordering a b = 0) := by
  refine ⟨fun a b h => version_ordering_lex_of_length_eq a b h,
          fun a b => version_ordering_take a b, fun a b h => ?_⟩
  rcases h with h | h
  · exact version_ordering_eq_zero_of_take_left a b h
  · rw [version_ordering_neg, version_ordering_eq_zero_of_take_left b a h]
    rfl

/-- Witness for C3 at concrete inputs: `[1,0] < [1,1]` lexicographically
with comparator value -1, and the shorter `[1,2]` compares equal to
`[1,2,3]`. -/
theorem version_ordering_spec_witness :
    (([1, 0] : List Int).length = ([1, 1] : List Int).length ∧
     (version_ordering [1, 0] [1, 1] = -1 ↔
       List.Lex (· < ·) ([1, 0] : List Int) [1, 1])) ∧
    (([1, 2] : List Int) = ([1, 2, 3] : List Int).take ([1, 2] : List Int).length ∧
     version_ordering [1, 2] [1, 2, 3] = 0) :=
  ⟨⟨rfl, (version_ordering_spec.1 [1, 0] [1, 1] rfl).1⟩,
   ⟨by decide, version_ordering_spec.2.2 [1, 2] [1, 2, 3] (Or.inl (by decide))⟩⟩

/-- C10: the comparator is antisymmetric — `version_ordering a b` is the
negation of `version_ordering b a` for all integer lists, of equal length
or not. -/
theorem version_ordering_antisymm (a b : List Int) :
    version_ordering a b = -version_ordering b a :=
  version_ordering_neg a b

/-! ### Claim theorem about the filename parser -/

/-- C4: parsing `"1.2.3_abcdef0123_avr.json"` yields version string
`"1.2.3"` (integer tuple `[1,2,3]`), checksum `"abcdef0123"`, platform
`"avr"` and extension `"json"`; the splits are at the first two `_` and
the first `.` (shown on an input with extra delimiters), and a filename
missing a `_` or the `.` parses to `none`, the modelled parse fault. -/
theorem parse_asset_name_spec :
    parseAssetName "1.2.3_abcdef0123_avr.json" =
      some ("1.2.3", "abcdef0123", "avr", "json") ∧
    parseVersion "1.2.3" = some [1, 2, 3] ∧
    scanAsset [] ⟨"1.2.3_abcdef0123_avr.json", "u", 7⟩ =
      some [("avr",
        [("1.2.3", ⟨[1, 2, 3], "u", "1.2.3_abcdef0123_avr.json", 7⟩)])] ∧
    parseAssetName "1.2.3_ab_cd_ef.x.y" = some ("1.2.3", "ab", "cd_ef", "x.y") ∧
    parseAssetName "123.json" = none ∧
    parseAssetName "1.2.3_abcdef0123_avrjson" = none :=
  ⟨rfl, rfl, rfl, rfl, rfl, rfl⟩

/-! ### Pagination of the Release Scanner -/

theorem scanPagesFrom_eq_range {α : Type} (pages : Nat → List α)
    (per_page : Nat) (k : Nat) :
    ∀ (fuel p : Nat), (pages (p + k)).length < per_page →
      (∀ j, j < k → per_page ≤ (pages (p + j)).length) → k < fuel →
      scanPagesFrom pages per_page fuel p =
        (List.range (k + 1)).map (p + ·) := by
  induction k with
  | zero =>
    intro fuel p hshort _ hfuel
    match fuel, hfuel with
    | fuel + 1, _ =>
      simp only [Nat.add_zero] at hshort
      simp [scanPagesFrom, hshort, List.range_succ]
  | succ k ih =>
    intro fuel p hshort hfull hfuel
    match fuel, hfuel with
    | fuel + 1, hfuel =>
      have hfull0 : per_page ≤ (pages p).length := by
        simpa using hfull 0 (Nat.succ_pos k)
      have hshort' : (pages (p + 1 + k)).length < per_page := by
        have harith : p + 1 + k = p + (k + 1) := by omega
        rw [harith]
        exact hshort
      have hfull' : ∀ j, j < k → per_page ≤ (pages (p + 1 + j)).length := by
        intro j hj
        have harith : p + 1 + j = p + (j + 1) := by omega
        rw [harith]
        exact hfull (j + 1) (by omega)
      have ihres := ih fuel (p + 1) hshort' hfull' (by omega)
      simp only [scanPagesFrom, if_neg (not_lt.mpr hfull0), ihres]
      conv_rhs => rw [List.range_succ_eq_map]
      simp only [List.map_cons, List.map_map, Nat.add_zero]
      refine congrArg (p :: ·) (List.map_congr_left fun i _ => ?_)
      simp only [Function.comp_apply]
      omega

/-- C7: the scanner requests pages one at a time starting at page 0 and
incrementing by 1, and given that page `k` is the first page shorter
than `per_page` (all earlier pages being full), the requested pages are
exactly `0, 1, ..., k` — no request follows the first short page. The
default page size of `get_released_boards` is 30. -/
theorem pagination_stops_at_first_short_page {α : Type} (pages : Nat → List α)
    (per_page fuel k : Nat) (hshort : (pages k).length < per_page)
    (hfull : ∀ j, j < k → per_page ≤ (pages j).length) (hfuel : k < fuel) :
    per_page_default = 30 ∧
    requestedPages pages per_page fuel = List.range (k + 1) := by
  refine ⟨rfl, ?_⟩
  have h := scanPagesFrom_eq_range pages per_page k fuel 0
    (by simpa using hshort) (by simpa using hfull) hfuel
  simpa [requestedPages] using h

/-- Witness for C7: with full pages 0 and 1 and a short page 2 at page
size 30, the requested pages are exactly `[0, 1, 2]`. -/
theorem pagination_stops_witness :
    (pagesExample 2).length < 30 ∧
    (∀ j, j < 2 → 30 ≤ (pagesExample j).length) ∧ 2 < 10 ∧
    requestedPages pagesExample 30 10 = List.range 3 :=
  ⟨by decide, by decide, by decide,
   (pagination_stops_at_first_short_page pagesExample 30 10 2 (by decide)
     (by decide) (by decide)).2⟩

/-! ### Claim theorem about the pagination request shape -/

/-- C8 (refuted by the code): the releases-listing request built at line
44 passes `per_page` and `page` inside the HTTP headers dictionary and
sends no query parameters at all — `aiohttp` query parameters would be
`params=`, which the call never supplies. Shown for all page numbers and
evaluated at the concrete first request (`per_page = 30`, `page = 0`). -/
theorem pagination_params_sent_as_headers :
    (∀ per_page page_number : Nat,
      (releasesPageRequest per_page page_number).query = [] ∧
      dictGet? (releasesPageRequest per_page page_number).headers "per_page" =
        some (toString per_page) ∧
      dictGet? (releasesPageRequest per_page page_number).headers "page" =
        some (toString page_number)) ∧
    (releasesPageRequest 30 0).query = [] ∧
    dictGet? (releasesPageRequest 30 0).headers "per_page" = some "30" ∧
    dictGet? (releasesPageRequest 30 0).headers "page" = some "0" :=
  ⟨fun _ _ => ⟨rfl, rfl, rfl⟩, rfl, rfl, rfl⟩

/-! ### Claim theorems about the publish phase -/

/-- C5: any run whose trace contains a create-release or upload call has
passed the JSON sanity check on the rendered index, and the uploaded body
is exactly that validated index — the program never publishes unparsable
output. -/
theorem never_publish_unparsable (jsonOk : String → Bool)
    (createResponse : List (String × Int)) (idx : String) (e : Ev)
    (he : e ∈ mainPublish jsonOk createResponse idx)
    (hwrite : e = Ev.createReleaseCall ∨ ∃ rid body, e = Ev.uploadCall rid body) :
    jsonOk idx = true ∧
    (∀ rid body, e = Ev.uploadCall rid body →
      body = idx ∧ jsonOk body = true) := by
  by_cases hj : jsonOk idx
  · refine ⟨hj, ?_⟩
    rintro rid body rfl
    rcases hcr : create_release createResponse with _ | r <;>
      simp [mainPublish, hj, hcr] at he
    obtain ⟨-, rfl⟩ := he
    exact ⟨rfl, hj⟩
  · exfalso
    simp [mainPublish, hj] at he
    rcases hwrite with rfl | ⟨rid, body, rfl⟩ <;> simp_all

/-- Witness for C5: a run with a parseable index and a well-formed
create-release response uploads that index. -/
theorem never_publish_unparsable_witness :
    (Ev.uploadCall 7 "x" ∈ mainPublish (fun _ => true) [("id", 7)] "x") ∧
    ((fun _ : String => true) "x" = true ∧
     (∀ rid body, Ev.uploadCall 7 "x" = Ev.uploadCall rid body →
       body = "x" ∧ (fun _ : String => true) body = true)) :=
  ⟨by decide,
   never_publish_unparsable (fun _ => true) [("id", 7)] "x"
     (Ev.uploadCall 7 "x") (by decide) (Or.inr ⟨7, "x", rfl⟩)⟩

/-- C6: an upload event in the trace implies that `create_release`
returned exactly that release identifier, and the trace contains the
create-release return strictly before the upload — the upload is never
attempted before create-release has returned an identifier. -/
theorem upload_only_after_create_release (jsonOk : String → Bool)
    (createResponse : List (String × Int)) (idx : String) (rid : Int)
    (body : String)
    (h : Ev.uploadCall rid body ∈ mainPublish jsonOk createResponse idx) :
    create_release createResponse = some rid ∧
    ∃ i j, i < j ∧
      (mainPublish jsonOk createResponse idx).get? i =
        some (Ev.createReleaseReturn rid) ∧
      (mainPublish jsonOk createResponse idx).get? j =
        some (Ev.uploadCall rid body) := by
  by_cases hj : jsonOk idx
  · rcases hcr : create_release createResponse with _ | r <;>
      simp [mainPublish, hj, hcr] at h
    obtain ⟨rfl, rfl⟩ := h
    exact ⟨rfl, 2, 3, by omega, by simp [mainPublish, hj, hcr], by
      simp [mainPublish, hj, hcr]⟩
  · simp [mainPublish, hj] at h

/-- Witness for C6: in the concrete successful run the create-release
return at index 2 precedes the upload at index 3 with the same id. -/
theorem upload_only_after_create_release_witness :
    (Ev.uploadCall 7 "x" ∈ mainPublish (fun _ => true) [("id", 7)] "x") ∧
    (create_release [("id", 7)] = some 7 ∧
     ∃ i j, i < j ∧
       (mainPublish (fun _ => true) [("id", 7)] "x").get? i =
         some (Ev.createReleaseReturn 7) ∧
       (mainPublish (fun _ => true) [("id", 7)] "x").get? j =
         some (Ev.uploadCall 7 "x")) :=
  ⟨by decide,
   upload_only_after_create_release (fun _ => true) [("id", 7)] "x" 7 "x"
     (by decide)⟩

/-! ### Claim theorems about the Manifest Merger -/

/-- C1 counterexample: after scanning versions `1.0.0` then `1.1.0` for
platform `avr`, the merged map holds TWO entries for `avr` — the `1.0.0`
entry is retained alongside `1.1.0`, so the merger neither stores at most
one entry per platform nor ends with exactly the `[1,1,0]` entry, and no
version comparison takes place (`version_ordering` is never called in the
scan loop). -/
theorem manifest_merge_keeps_superseded_entry :
    mergeManifests [⟨"avr", "1.0.0", ["uno"], "avr"⟩,
                    ⟨"avr", "1.1.0", ["uno"], "avr"⟩] =
      some [("avr", [("1.0.0", ⟨["uno"], [1, 0, 0], "avr"⟩),
                     ("1.1.0", ⟨["uno"], [1, 1, 0], "avr"⟩)])] ∧
    (mergeManifests [⟨"avr", "1.0.0", ["uno"], "avr"⟩,
                     ⟨"avr", "1.1.0", ["uno"], "avr"⟩]).map
        (fun m => (dictGetD m "avr" []).length) = some 2 :=
  ⟨rfl, rfl⟩

/-- C1 (amended): the merger stores one entry per (platform, version
string) pair — a scanned item unconditionally overwrites only the entry
with its own platform and version string and leaves every other version
and platform untouched — and after scanning `[1,0,0]` then `[1,1,0]` for
`avr` (in either order) the merged result holds both entries. -/
theorem manifest_merge_by_platform_version :
    (∀ (m : MMap) (it : RawManifestItem) (pv : List Int) (m' : MMap),
      parseVersion it.version = some pv →
      scanManifestItem m it = some m' →
      dictGet? (dictGetD m' it.platform []) it.version =
        some ⟨it.boards, pv, it.architecture⟩ ∧
      (∀ v', v' ≠ it.version →
        dictGet? (dictGetD m' it.platform []) v' =
          dictGet? (dictGetD m it.platform []) v') ∧
      (∀ p', p' ≠ it.platform → dictGet? m' p' = dictGet? m p')) ∧
    mergeManifests [⟨"avr", "1.0.0", ["uno"], "avr"⟩,
                    ⟨"avr", "1.1.0", ["uno"], "avr"⟩] =
      some [("avr", [("1.0.0", ⟨["uno"], [1, 0, 0], "avr"⟩),
                     ("1.1.0", ⟨["uno"], [1, 1, 0], "avr"⟩)])] ∧
    mergeManifests [⟨"avr", "1.1.0", ["uno"], "avr"⟩,
                    ⟨"avr", "1.0.0", ["uno"], "avr"⟩] =
      some [("avr", [("1.1.0", ⟨["uno"], [1, 1, 0], "avr"⟩),
                     ("1.0.0", ⟨["uno"], [1, 0, 0], "avr"⟩)])] := by
  refine ⟨?_, rfl, rfl⟩
  intro m it pv m' hp hs
  obtain rfl : m' = dictSet m it.platform
      (dictSet (dictGetD m it.platform []) it.version
        ⟨it.boards, pv, it.architecture⟩) := by
    have := hs.symm
    simpa [scanManifestItem, hp] using this
  refine ⟨?_, ?_, ?_⟩
  · simp [dictGetD, dictGet?_dictSet_self]
  · intro v' hv'
    simp [dictGetD, dictGet?_dictSet_self, dictGet?_dictSet_ne _ _ _ _ hv']
  · intro p' hp'
    exact dictGet?_dictSet_ne _ _ _ _ hp'

/-- Witness for C1 (amended): scanning the `1.1.0` item into a map that
already holds `1.0.0` for `avr` stores the new entry under its own
version key. -/
theorem manifest_merge_by_platform_version_witness :
    parseVersion "1.1.0" = some [1, 1, 0] ∧
    scanManifestItem [("avr", [("1.0.0", ⟨["uno"], [1, 0, 0], "avr"⟩)])]
        ⟨"avr", "1.1.0", ["uno"], "avr"⟩ =
      some [("avr", [("1.0.0", ⟨["uno"], [1, 0, 0], "avr"⟩),
                     ("1.1.0", ⟨["uno"], [1, 1, 0], "avr"⟩)])] ∧
    dictGet?
      (dictGetD ([("avr", [("1.0.0", ⟨["uno"], [1, 0, 0], "avr"⟩),
                           ("1.1.0", ⟨["uno"], [1, 1, 0], "avr"⟩)])] : MMap)
        "avr" [])
      "1.1.0" = some ⟨["uno"], [1, 1, 0], "avr"⟩ :=
  ⟨rfl, rfl,
   (manifest_merge_by_platform_version.1
     [("avr", [("1.0.0", ⟨["uno"], [1, 0, 0], "avr"⟩)])]
     ⟨"avr", "1.1.0", ["uno"], "avr"⟩ [1, 1, 0]
     [("avr", [("1.0.0", ⟨["uno"], [1, 0, 0], "avr"⟩),
               ("1.1.0", ⟨["uno"], [1, 1, 0], "avr"⟩)])] rfl rfl).1⟩

/-! ### Claim theorems about the Asset Cataloger -/

/-- C2 counterexample: scanning two assets for platform `avr` with
distinct versions leaves TWO catalog entries for `avr` — the earlier one
is not overwritten, so the cataloger does not keep exactly one entry per
platform. -/
theorem asset_catalog_keeps_both_versions :
    catalogAssets [⟨"1.0.0_h1_avr.json", "u1", 10⟩,
                   ⟨"1.1.0_h2_avr.json", "u2", 20⟩] =
      some [("avr",
        [("1.0.0", ⟨[1, 0, 0], "u1", "1.0.0_h1_avr.json", 10⟩),
         ("1.1.0", ⟨[1, 1, 0], "u2", "1.1.0_h2_avr.json", 20⟩)])] ∧
    (catalogAssets [⟨"1.0.0_h1_avr.json", "u1", 10⟩,
                    ⟨"1.1.0_h2_avr.json", "u2", 20⟩]).map
        (fun m => (dictGetD m "avr" []).length) = some 2 :=
  ⟨rfl, rfl⟩

/-- C2 (amended): the cataloger keeps one entry per (platform, version
string) pair — a newly scanned asset unconditionally overwrites only the
entry with the same platform and version string (no version-order
comparison, last-scanned-wins at that key) and leaves other versions and
platforms untouched; two assets with the same platform and version show
the last-wins overwrite. -/
theorem asset_catalog_by_platform_version :
    (∀ (m : CMap) (a : Asset) (vs cs ps es : String) (pv : List Int)
       (m' : CMap),
      parseAssetName a.name = some (vs, cs, ps, es) →
      parseVersion vs = some pv →
      scanAsset m a = some m' →
      dictGet? (dictGetD m' ps []) vs =
        some ⟨pv, a.browser_download_url, a.name, a.size⟩ ∧
      (∀ v', v' ≠ vs →
        dictGet? (dictGetD m' ps []) v' = dictGet? (dictGetD m ps []) v') ∧
      (∀ p', p' ≠ ps → dictGet? m' p' = dictGet? m p')) ∧
    catalogAssets [⟨"1.0.0_h1_avr.json", "u1", 10⟩,
                   ⟨"1.0.0_h2_avr.json", "u2", 20⟩] =
      some [("avr",
        [("1.0.0", ⟨[1, 0, 0], "u2", "1.0.0_h2_avr.json", 20⟩)])] := by
  refine ⟨?_, rfl⟩
  intro m a vs cs ps es pv m' hn hp hs
  obtain rfl : m' = dictSet m ps
      (dictSet (dictGetD m ps []) vs
        ⟨pv, a.browser_download_url, a.name, a.size⟩) := by
    have := hs.symm
    simpa [scanAsset, hn, hp] using this
  refine ⟨?_, ?_, ?_⟩
  · simp [dictGetD, dictGet?_dictSet_self]
  · intro v' hv'
    simp [dictGetD, dictGet?_dictSet_self, dictGet?_dictSet_ne _ _ _ _ hv']
  · intro p' hp'
    exact dictGet?_dictSet_ne _ _ _ _ hp'

/-- Witness for C2 (amended): re-scanning version `1.0.0` for `avr`
overwrites the stored entry for that exact (platform, version) key. -/
theorem asset_catalog_by_platform_version_witness :
    parseAssetName "1.0.0_h2_avr.json" = some ("1.0.0", "h2", "avr", "json") ∧
    parseVersion "1.0.0" = some [1, 0, 0] ∧
    scanAsset [("avr", [("1.0.0", ⟨[1, 0, 0], "u1", "1.0.0_h1_avr.json", 10⟩)])]
        ⟨"1.0.0_h2_avr.json", "u2", 20⟩ =
      some [("avr", [("1.0.0", ⟨[1, 0, 0], "u2", "1.0.0_h2_avr.json", 20⟩)])] ∧
    dictGet?
      (dictGetD ([("avr", [("1.0.0",
        ⟨[1, 0, 0], "u2", "1.0.0_h2_avr.json", 20⟩)])] : CMap) "avr" [])
      "1.0.0" = some ⟨[1, 0, 0], "u2", "1.0.0_h2_avr.json", 20⟩ :=
  ⟨rfl, rfl, rfl,
   (asset_catalog_by_platform_version.1
     [("avr", [("1.0.0", ⟨[1, 0, 0], "u1", "1.0.0_h1_avr.json", 10⟩)])]
     ⟨"1.0.0_h2_avr.json", "u2", 20⟩ "1.0.0" "h2" "avr" "json" [1, 0, 0]
     [("avr", [("1.0.0", ⟨[1, 0, 0], "u2", "1.0.0_h2_avr.json", 20⟩)])]
     rfl rfl rfl).1⟩

/-! ### Claim theorems about the Index Publisher join -/

theorem optionMapM_eq_none {α β : Type} (f : α → Option β) :
    ∀ l : List α, optionMapM f l = none ↔ ∃ x ∈ l, f x = none := by
  intro l
  induction l with
  | nil => simp [optionMapM]
  | cons x xs ih =>
    rcases hx : f x with _ | y
    · simp [optionMapM, hx]
    · simp [optionMapM, hx, Option.map_eq_none', ih]

theorem buildPlatformEntries_eq_none (mi : MMap) (catalog : CMap) :
    buildPlatformEntries mi catalog = none ↔
      ∃ pi ∈ catalog, ∃ vc ∈ pi.2,
        buildPlatformRecord mi pi.1 vc.1 vc.2 = none := by
  unfold buildPlatformEntries
  rw [Option.map_eq_none', optionMapM_eq_none]
  constructor
  · rintro ⟨pi, hpi, hnone⟩
    rw [optionMapM_eq_none] at hnone
    obtain ⟨vc, hvc, h⟩ := hnone
    exact ⟨pi, hpi, vc, hvc, h⟩
  · rintro ⟨pi, hpi, vc, hvc, h⟩
    exact ⟨pi, hpi, (optionMapM_eq_none _ _).mpr ⟨vc, hvc, h⟩⟩

/-- C9 counterexample: with a manifest entry present for platform `avr`
(under version `2.0.0`) and a catalog entry for `avr` under version
`1.0.0`, the publisher faults — the join is keyed by (platform, version),
not by platform name, so the presence of a manifest entry for the
platform does not prevent the lookup fault. -/
theorem publish_join_faults_despite_platform_present :
    buildPlatformEntries
        [("avr", [("2.0.0", ⟨["uno"], [2, 0, 0], "avr"⟩)])]
        [("avr", [("1.0.0", ⟨[1, 0, 0], "u", "1.0.0_dead_avr.json", 1024⟩)])] =
      none ∧
    dictGet? ([("avr", [("2.0.0", ⟨["uno"], [2, 0, 0], "avr"⟩)])] : MMap)
        "avr" = some [("2.0.0", ⟨["uno"], [2, 0, 0], "avr"⟩)] :=
  ⟨rfl, rfl⟩

/-- C9 (amended): the publish-time record set is the join of the manifest
map and the asset catalog keyed by the (platform, version) pair: a record
is built from the catalog entry and `manifest_info[platform][version]`,
with the checksum re-derived from the stored filename, and the publisher
faults exactly when some catalog (platform, version) pair has no manifest
entry under that same pair (or its filename fails the checksum re-split). -/
theorem publish_join_by_platform_version :
    (∀ (mi : MMap) (p v : String) (ce : CatalogEntry),
      dictGet? (dictGetD mi p []) v = none →
      buildPlatformRecord mi p v ce = none) ∧
    (∀ (mi : MMap) (p v : String) (ce : CatalogEntry) (me : ManifestEntry)
       (r : PlatformRecord),
      dictGet? (dictGetD mi p []) v = some me →
      buildPlatformRecord mi p v ce = some r →
      r.platform_name = p ∧ r.version = v ∧ r.architecture = me.architecture ∧
      r.boards = me.boards ∧ r.url = ce.url ∧ r.filename = ce.filename ∧
      r.size_bytes = ce.filesize ∧
      (splitOnce '_' ce.filename).bind
          (fun p1 => (splitOnce '_' p1.2).map fun p2 => p2.1) =
        some r.sha256_checksum) ∧
    (∀ (mi : MMap) (catalog : CMap),
      buildPlatformEntries mi catalog = none ↔
        ∃ pi ∈ catalog, ∃ vc ∈ pi.2,
          buildPlatformRecord mi pi.1 vc.1 vc.2 = none) := by
  refine ⟨?_, ?_, buildPlatformEntries_eq_none⟩
  · intro mi p v ce hnone
    rcases h1 : splitOnce '_' ce.filename with _ | p1
    · simp [buildPlatformRecord, h1]
    · rcases h2 : splitOnce '_' p1.2 with _ | p2
      · simp [buildPlatformRecord, h1, h2]
      · simp [buildPlatformRecord, h1, h2, hnone]
  · intro mi p v ce me r hme hr
    rcases h1 : splitOnce '_' ce.filename with _ | p1
    · simp [buildPlatformRecord, h1] at hr
    · rcases h2 : splitOnce '_' p1.2 with _ | p2
      · simp [buildPlatformRecord, h1, h2] at hr
      · simp [buildPlatformRecord, h1, h2, hme] at hr
        subst hr
        simp [h2]

/-- Witness for C9 (amended): an empty manifest map makes the record
construction fault for a concrete catalog entry. -/
theorem publish_join_by_platform_version_witness :
    dictGet? (dictGetD ([] : MMap) "avr" []) "1.0.0" = none ∧
    buildPlatformRecord [] "avr" "1.0.0"
      ⟨[1, 0, 0], "u", "1.0.0_dead_avr.json", 1024⟩ = none :=
  ⟨rfl,
   publish_join_by_platform_version.1 [] "avr" "1.0.0"
     ⟨[1, 0, 0], "u", "1.0.0_dead_avr.json", 1024⟩ rfl⟩

end ArduinoBoardIndex
